import Mathlib

/-!
Verification of the HTTP request parser of this repository.

The authoritative code is the `bufio.Reader`-based `parseHTTPRequest`
together with `LimitedBodyReader.Read` (Go).  The byte stream delivered by
the connection is embedded as a `List Char` (the traffic relevant to the
claims is ASCII); `bufio.Reader.ReadString('\n')` becomes `readLine`,
returning the line up to and including the delimiter together with the
remaining stream and an error flag (the flag is `true` exactly when the
stream ends before a delimiter, which is Go's `io.EOF` case).

The Go parse loop is embedded with explicit fuel; the top-level wrapper
`parseHTTPRequest` supplies `stream.length + 2` fuel, which is provably
sufficient (theorem `parseLoop_no_fuelOut` below), so the wrapper's
behaviour coincides with the Go loop on every input.
-/

set_option maxRecDepth 10000

namespace HttpSrv

/-- ASCII approximation of Go `unicode.IsSpace` restricted to the byte
range the parser ever sees: space, tab, newline, carriage return,
vertical tab, form feed. -/
def isSpaceChar (c : Char) : Bool :=
  c = ' ' || c = '\t' || c = '\n' || c = '\r' || c = '\x0b' || c = '\x0c'

/-- Go `strings.TrimSpace`: drop whitespace from both ends. -/
def trimSpace (l : List Char) : List Char :=
  ((l.dropWhile isSpaceChar).reverse.dropWhile isSpaceChar).reverse

/-- Go `strings.ToLower` on an ASCII string: lowercase each character. -/
def toLowerList (l : List Char) : List Char :=
  l.map Char.toLower

/-- Go `strings.Split(s, " ")`: split at every single space, keeping
empty fields; always returns at least one field. -/
def splitOnSpace : List Char → List (List Char)
  | [] => [[]]
  | c :: cs =>
    match splitOnSpace cs with
    | [] => [[]]
    | t :: ts => if c = ' ' then [] :: t :: ts else (c :: t) :: ts

/-- Go `strings.SplitN(s, ":", 2)`: split at the first colon.  `none` in
the second component means the line had no colon (Go returns a one-element
slice in that case, so indexing element 1 panics). -/
def splitN2Colon : List Char → List Char × Option (List Char)
  | [] => ([], none)
  | c :: cs =>
    if c = ':' then ([], some cs)
    else
      let r := splitN2Colon cs
      (c :: r.1, r.2)

/-- Value of a non-empty all-decimal-digit string, `none` otherwise. -/
def digitsVal? (l : List Char) : Option Nat :=
  if l = [] then none
  else
    l.foldl
      (fun acc c =>
        match acc with
        | none => none
        | some v => if '0' ≤ c ∧ c ≤ '9' then some (v * 10 + (c.toNat - '0'.toNat)) else none)
      (some 0)

/-- Go `strconv.Atoi`: an optional sign followed by at least one decimal
digit; anything else is an error (`none`).  Note that Atoi accepts
negative numbers.  (Go's int-range overflow error is not modelled; the
claims never involve values near 2^63.) -/
def atoi? : List Char → Option Int
  | '+' :: rest => (digitsVal? rest).map Int.ofNat
  | '-' :: rest => (digitsVal? rest).map (fun n => -(n : Int))
  | l => (digitsVal? l).map Int.ofNat

/-- Go `bufio.Reader.ReadString('\n')` over the remaining byte stream:
returns the data up to and including the first newline, the rest of the
stream, and an error flag; at end of stream before any newline it returns
the remaining data with the flag set (Go returns the data together with
`io.EOF`). -/
def readLine : List Char → List Char × List Char × Bool
  | [] => ([], [], true)
  | c :: cs =>
    if c = '\n' then ([c], cs, false)
    else
      let r := readLine cs
      (c :: r.1, r.2.1, r.2.2)

/-- Go `Header` struct: one name/value pair.  The main parser stores the
name lowercased and both parts trimmed. -/
structure Header where
  name : List Char
  value : List Char
deriving DecidableEq, Repr

/-- Go `LimitedBodyReader` struct.  The `buf *bufio.Reader` field is the
connection's byte source; it is abstracted here, and each call of `Read`
below takes the outcome the source produced as parameters. -/
structure LimitedBodyReader where
  remaining : Int
deriving DecidableEq, Repr

/-- Go `HTTPReq` struct of the main parser.  `body` is the
`LimitedBodyReader` the parser installed, or `none` when the `Body` field
was left nil (GET/HEAD path); the reader's underlying stream is the
`rest` component returned by the parser alongside the request. -/
structure HTTPReq where
  method : List Char
  uri : List Char
  version : List Char
  headers : List Header
  body : Option LimitedBodyReader
deriving DecidableEq, Repr

/-- Error results of the Go parser: the wrapped `ReadString` error
("Something went wrong"), the header-cap error ("Buffer is too large"),
and the wrapped `strconv.Atoi` error. -/
inductive ParseError where
  | readFail
  | tooLarge
  | atoiFail
deriving DecidableEq, Repr

/-- Result of a parse run.  `ok` and `err` carry the unconsumed remainder
of the stream (observable in Go through the shared `bufio.Reader`);
`panicked` is a Go runtime panic (index out of range on a malformed
line); `fuelOut` is the fuel-exhaustion artefact of the embedding and is
never produced by the wrapper (theorem `parseLoop_no_fuelOut`). -/
inductive ParseResult where
  | ok (req : HTTPReq) (rest : List Char)
  | err (e : ParseError) (rest : List Char)
  | panicked
  | fuelOut
deriving DecidableEq, Repr

/-- Mutable local state of the Go parse loop. -/
structure ParseSt where
  method : List Char := []
  uri : List Char := []
  version : List Char := []
  headerArr : List Header := []
  headerBytes : Nat := 0
  count : Nat := 0
  isHeaderComplete : Bool := false
deriving DecidableEq, Repr

/-- Literal `"GET"`. -/
def GETs : List Char := ['G', 'E', 'T']

/-- Literal `"HEAD"`. -/
def HEADs : List Char := ['H', 'E', 'A', 'D']

/-- Literal `"content-length"` (the parser lowercases header names). -/
def contentLengthName : List Char :=
  ['c', 'o', 'n', 't', 'e', 'n', 't', '-', 'l', 'e', 'n', 'g', 't', 'h']

/-- Go loop `for header := range headerArr` of the parser's body phase:
starting from `contentLength = 0`, every header named `content-length`
is fed to Atoi; an unparsable one aborts with an error, and the last
parsable occurrence wins. -/
def computeCL (acc : Int) : List Header → Except Unit Int
  | [] => Except.ok acc
  | h :: t =>
    if h.name = contentLengthName then
      match atoi? h.value with
      | none => Except.error ()
      | some v => computeCL v t
    else computeCL acc t

/-- Go `parseHTTPRequest` loop body, fuel-indexed.  Each iteration is a
literal transcription of the Go `for` loop: `ReadString`, error check,
header-phase (cap check, terminator check, request-line split or header
split) or completion-phase (GET/HEAD early return with nil body,
otherwise Content-Length scan and `LimitedBodyReader` installation).
Note the completion phase runs only on the iteration after the `continue`
that followed the `\r\n` terminator, so it begins by reading — and then
discarding — one more line from the stream. -/
def parseLoop : Nat → List Char → ParseSt → ParseResult
  | 0, _, _ => .fuelOut
  | fuel + 1, stream, st =>
    let r := readLine stream
    let line := r.1
    let rest := r.2.1
    if r.2.2 then .err .readFail rest
    else if st.isHeaderComplete = false then
      let headerBytes := st.headerBytes + line.length
      if 8192 < headerBytes then .err .tooLarge rest
      else if line = ['\r', '\n'] then
        parseLoop fuel rest { st with isHeaderComplete := true, headerBytes := headerBytes }
      else if st.count = 0 then
        match splitOnSpace line with
        | t0 :: t1 :: t2 :: _ =>
          parseLoop fuel rest
            { st with
              method := trimSpace t0
              uri := trimSpace t1
              version := trimSpace t2
              headerBytes := headerBytes
              count := st.count + 1 }
        | _ => .panicked
      else
        match splitN2Colon line with
        | (d0, some d1) =>
          parseLoop fuel rest
            { st with
              headerArr := st.headerArr ++ [⟨toLowerList (trimSpace d0), trimSpace d1⟩]
              headerBytes := headerBytes
              count := st.count + 1 }
        | (_, none) => .panicked
    else
      if st.method = GETs ∨ st.method = HEADs then
        .ok ⟨st.method, st.uri, st.version, st.headerArr, none⟩ rest
      else
        match computeCL 0 st.headerArr with
        | .error _ => .err .atoiFail rest
        | .ok cl => .ok ⟨st.method, st.uri, st.version, st.headerArr, some ⟨cl⟩⟩ rest

/-- Go `parseHTTPRequest` applied to a fresh `bufio.Reader` over the
given stream.  The fuel `stream.length + 2` is sufficient because every
loop iteration either returns or consumes at least one character. -/
def parseHTTPRequest (stream : List Char) : ParseResult :=
  parseLoop (stream.length + 2) stream {}

/-- Outcome of one `LimitedBodyReader.Read` call: `okR n r` is Go's
`return n, nil` with the updated reader, `eofR` is `return 0, io.EOF`,
`errR` is the `return 0, fmt.Errorf(...)` branch (zero bytes reported,
reader unchanged), and `panickedR` is the runtime panic `p[:bytesIWant]`
raises when `bytesIWant` is negative. -/
inductive ReadOutcome where
  | okR (n : Nat) (r : LimitedBodyReader)
  | eofR (r : LimitedBodyReader)
  | errR (r : LimitedBodyReader)
  | panickedR
deriving DecidableEq, Repr

/-- Go `LimitedBodyReader.Read`.  The underlying buffered source
`r.buf` is abstracted: `n` and `e` are the byte count and error flag the
call `r.buf.Read(p[:bytesIWant])` produced (a well-formed `io.Reader`
returns `n ≤ bytesIWant`; that contract is a hypothesis of the theorems
below, never assumed by the definition). -/
def LimitedBodyReader.Read (r : LimitedBodyReader) (plen : Nat) (n : Nat) (e : Bool) :
    ReadOutcome :=
  if r.remaining = 0 then .eofR r
  else
    let bytesIWant : Int := min (plen : Int) r.remaining
    if bytesIWant < 0 then .panickedR
    else if e then .errR r
    else .okR n ⟨r.remaining - n⟩

/-- One read call as a state transition: `op = (plen, n, e)` is the
caller's buffer length together with the underlying source's outcome;
`none` means the call panicked. -/
def readStep (r : LimitedBodyReader) (op : Nat × Nat × Bool) : Option LimitedBodyReader :=
  match r.Read op.1 op.2.1 op.2.2 with
  | .okR _ r' => some r'
  | .eofR r' => some r'
  | .errR r' => some r'
  | .panickedR => none

/-- Reader states after each call of a sequence of read calls (cut short
at a panic). -/
def readTrace (r : LimitedBodyReader) : List (Nat × Nat × Bool) → List LimitedBodyReader
  | [] => []
  | op :: ops =>
    match readStep r op with
    | none => []
    | some r' => r' :: readTrace r' ops

/-- The `io.Reader` contract along a call sequence: whenever the reader
consults the underlying source (`remaining > 0`), the source delivers at
most the `min (len p) remaining` bytes that were requested. -/
def opsOk : LimitedBodyReader → List (Nat × Nat × Bool) → Bool
  | _, [] => true
  | r, op :: ops =>
    (decide (r.remaining ≤ 0) || decide ((op.2.1 : Int) ≤ min (op.1 : Int) r.remaining)) &&
    (match readStep r op with
     | none => true
     | some r' => opsOk r' ops)

/-- Size in bytes of the stream's header block as the spec describes it:
the complete CRLF-terminated lines up to and including the empty
terminator line, `none` when the terminator never arrives.  This
definition follows the spec's words and is used to state the amended
header-cap claim against the parser. -/
def headerBlockLenFuel : Nat → List Char → Option Nat
  | 0, _ => none
  | fuel + 1, stream =>
    let r := readLine stream
    if r.2.2 then none
    else if r.1 = ['\r', '\n'] then some r.1.length
    else (headerBlockLenFuel fuel r.2.1).map (· + r.1.length)

/-- Wrapper for `headerBlockLenFuel` with the same fuel discipline as
`parseHTTPRequest`. -/
def headerBlockLen (stream : List Char) : Option Nat :=
  headerBlockLenFuel (stream.length + 2) stream

/-- Go `bufio.Reader.ReadString('\n')` over a fragmented delivery: the
reader holds already-received bytes (`pending`) and the connection will
deliver the remaining fragments (`chunks`, one per `conn.Read`).  The
buffered data is scanned for the delimiter first; only when it is absent
is the next fragment pulled, exactly as `bufio` refills on demand.
Returns the line, the new buffered bytes, the undelivered fragments and
the error flag. -/
def readLineFrag : List Char → List (List Char) → List Char × List Char × List (List Char) × Bool
  | pending, [] =>
    let r := readLine pending
    (r.1, r.2.1, [], r.2.2)
  | pending, c :: cs =>
    if pending.contains '\n' then
      let r := readLine pending
      (r.1, r.2.1, c :: cs, r.2.2)
    else readLineFrag (pending ++ c) cs

/-- Parse result over a fragmented delivery; the unconsumed remainder is
the pair of buffered bytes and undelivered fragments. -/
inductive ParseResultF where
  | ok (req : HTTPReq) (pending : List Char) (chunks : List (List Char))
  | err (e : ParseError) (pending : List Char) (chunks : List (List Char))
  | panicked
  | fuelOut
deriving DecidableEq, Repr

/-- Forgets the fragmentation of the unconsumed remainder. -/
def flattenF : ParseResultF → ParseResult
  | .ok req pending chunks => .ok req (pending ++ chunks.flatten)
  | .err e pending chunks => .err e (pending ++ chunks.flatten)
  | .panicked => .panicked
  | .fuelOut => .fuelOut

/-- The parse loop run over a fragmented delivery: identical to
`parseLoop` except that each `ReadString` is `readLineFrag`. -/
def parseLoopFrag : Nat → List Char → List (List Char) → ParseSt → ParseResultF
  | 0, _, _, _ => .fuelOut
  | fuel + 1, pending, chunks, st =>
    let r := readLineFrag pending chunks
    let line := r.1
    let pending' := r.2.1
    let chunks' := r.2.2.1
    if r.2.2.2 then .err .readFail pending' chunks'
    else if st.isHeaderComplete = false then
      let headerBytes := st.headerBytes + line.length
      if 8192 < headerBytes then .err .tooLarge pending' chunks'
      else if line = ['\r', '\n'] then
        parseLoopFrag fuel pending' chunks' { st with isHeaderComplete := true, headerBytes := headerBytes }
      else if st.count = 0 then
        match splitOnSpace line with
        | t0 :: t1 :: t2 :: _ =>
          parseLoopFrag fuel pending' chunks'
            { st with
              method := trimSpace t0
              uri := trimSpace t1
              version := trimSpace t2
              headerBytes := headerBytes
              count := st.count + 1 }
        | _ => .panicked
      else
        match splitN2Colon line with
        | (d0, some d1) =>
          parseLoopFrag fuel pending' chunks'
            { st with
              headerArr := st.headerArr ++ [⟨toLowerList (trimSpace d0), trimSpace d1⟩]
              headerBytes := headerBytes
              count := st.count + 1 }
        | (_, none) => .panicked
    else
      if st.method = GETs ∨ st.method = HEADs then
        .ok ⟨st.method, st.uri, st.version, st.headerArr, none⟩ pending' chunks'
      else
        match computeCL 0 st.headerArr with
        | .error _ => .err .atoiFail pending' chunks'
        | .ok cl => .ok ⟨st.method, st.uri, st.version, st.headerArr, some ⟨cl⟩⟩ pending' chunks'

/-- Go `parseHTTPRequest` over a fresh reader whose connection delivers
the given fragments. -/
def parseHTTPRequestFrag (chunks : List (List Char)) : ParseResultF :=
  parseLoopFrag (chunks.flatten.length + 2) [] chunks {}

/-- Whether a list of characters occurs contiguously inside another
(Go `strings.Contains`). -/
def startsWithSeq : List Char → List Char → Bool
  | _, [] => true
  | [], _ :: _ => false
  | c :: cs, p :: ps => c = p && startsWithSeq cs ps

/-- Whether `pat` occurs contiguously inside `l`. -/
def containsSeq : List Char → List Char → Bool
  | [], pat => startsWithSeq [] pat
  | c :: cs, pat => startsWithSeq (c :: cs) pat || containsSeq cs pat

/-- Literal `"transfer-encoding"`. -/
def transferEncodingName : List Char :=
  ['t', 'r', 'a', 'n', 's', 'f', 'e', 'r', '-', 'e', 'n', 'c', 'o', 'd', 'i', 'n', 'g']

/-- Literal `"chunked"`. -/
def chunkedChars : List Char := ['c', 'h', 'u', 'n', 'k', 'e', 'd']

/-- Spec-side predicate: the header list carries a `Transfer-Encoding`
whose value contains `"chunked"` (names are stored lowercased by the
parser). -/
def hasChunkedTE (hs : List Header) : Bool :=
  hs.any (fun h => h.name = transferEncodingName && containsSeq h.value chunkedChars)

/-- Whether a `Content-Length` header is present. -/
def hasCLHeader (hs : List Header) : Bool :=
  hs.any (fun h => h.name = contentLengthName)

/-- Literal `"connection"`. -/
def connectionName : List Char := ['c', 'o', 'n', 'n', 'e', 'c', 't', 'i', 'o', 'n']

/-- Literal `"close"`. -/
def closeChars : List Char := ['c', 'l', 'o', 's', 'e']

/-- Literal `"keep-alive"`. -/
def keepAliveChars : List Char := ['k', 'e', 'e', 'p', '-', 'a', 'l', 'i', 'v', 'e']

/-- Literal `"HTTP/1.1"`. -/
def http11Chars : List Char := ['H', 'T', 'T', 'P', '/', '1', '.', '1']

/-- Modelled from the spec: the repository has no connection loop around
its parser (main only spawns one parse per connection), so the explicit
`Connection: close` test of the spec's persistence policy is taken from
the spec's words. -/
def connClose (req : HTTPReq) : Bool :=
  req.headers.any (fun h => h.name = connectionName && h.value = closeChars)

/-- Modelled from the spec: persistence policy — an HTTP version below
1.1 without an explicit `Connection: keep-alive` forces close after one
cycle; otherwise the connection persists. -/
def keepAlive (req : HTTPReq) : Bool :=
  req.version = http11Chars ||
    req.headers.any (fun h => h.name = connectionName && h.value = keepAliveChars)

/-- Modelled from the spec: after the handler runs, any unread body bytes
are drained (read to completion and discarded) before the next parse
cycle.  A bounded reader with `remaining` bytes left discards that many
bytes of the unconsumed stream. -/
def drainBody (req : HTTPReq) (rest : List Char) : List Char :=
  match req.body with
  | none => rest
  | some r => rest.drop r.remaining.toNat

/-- Terminal state of the connection loop. -/
inductive LoopEnd where
  | closed
  | parseFailed
  | panicked
  | outOfFuel
deriving DecidableEq, Repr

/-- Modelled from the spec: the per-connection loop (the spec's
ConnectionLoop) is absent from the repository's code — `main` only spawns
`parseHTTPRequest` once per connection.  Following the spec's state
machine, each cycle parses one request with the repository's parser,
drains the unread body, and either closes (explicit `Connection: close`,
or no keep-alive eligibility) or loops on the unconsumed remainder.  A
parse error or panic ends the connection.  Returns the requests parsed in
order and how the loop ended. -/
def connectionLoop : Nat → List Char → List HTTPReq × LoopEnd
  | 0, _ => ([], .outOfFuel)
  | fuel + 1, stream =>
    match parseHTTPRequest stream with
    | .ok req rest =>
      let rest' := drainBody req rest
      if connClose req then ([req], .closed)
      else if keepAlive req then
        let r := connectionLoop fuel rest'
        (req :: r.1, r.2)
      else ([req], .closed)
    | .err _ _ => ([], .parseFailed)
    | .panicked => ([], .panicked)
    | .fuelOut => ([], .outOfFuel)

/-- Pipelined double-GET stream of the spec's connection-loop test. -/
def c4stream : List Char :=
  ("GET /a HTTP/1.1\r\nHost: x\r\n\r\nGET /b HTTP/1.1\r\nHost: x\r\nConnection: close\r\n\r\n").toList

/-- Pipelined stream for the GET-leaves-rest-unconsumed claim. -/
def c3stream : List Char :=
  ("GET /a HTTP/1.1\r\nHost: y\r\n\r\nGET /c HTTP/1.1\r\nHost: y\r\n\r\n").toList

/-- The bytes following the header terminator of `c3stream`: what the
claim says must remain unconsumed in the reader after the first parse. -/
def c3postTerminator : List Char :=
  ("GET /c HTTP/1.1\r\nHost: y\r\n\r\n").toList

/-- What the parser actually leaves unconsumed after parsing `c3stream`:
the second request's first line has been read and discarded. -/
def c3restActual : List Char := ("Host: y\r\n\r\n").toList

/-- A GET request delivered alone, the stream ending at the terminator. -/
def c3bareGet : List Char := ("GET /a HTTP/1.1\r\nHost: y\r\n\r\n").toList

/-- Request carrying both `Transfer-Encoding: chunked` and a
`Content-Length`, followed by a chunked body whose total payload is 3
bytes (one chunk `abc` and the terminal chunk). -/
def c2stream : List Char :=
  ("POST /u HTTP/1.1\r\nTransfer-Encoding: chunked\r\nContent-Length: 5\r\n\r\n3\r\nabc\r\n0\r\n\r\n").toList

/-- Request line with four space-separated tokens. -/
def c5stream : List Char := ("GET /a HTTP/1.1 extra\r\nHost: x\r\n\r\nX\r\n").toList

/-- Non-GET request whose `Content-Length` value is negative. -/
def c6stream : List Char := ("POST /u HTTP/1.1\r\nContent-Length: -5\r\n\r\nX\r\n").toList

/-- Non-GET request whose `Content-Length` value is not a number. -/
def c6badStream : List Char := ("POST /u HTTP/1.1\r\nContent-Length: abc\r\n\r\nX\r\n").toList

/-- Non-GET request whose `Content-Length` value is `-7`. -/
def c8stream : List Char := ("PUT /v HTTP/1.1\r\nContent-Length: -7\r\n\r\nY\r\n").toList

/-- Non-GET request with `Content-Length: 3`, used to exercise the
bounded reader produced by an actual parse. -/
def c8okStream : List Char := ("PUT /v HTTP/1.1\r\nContent-Length: 3\r\n\r\nabc\r\ndef").toList

/-- Well-formed POST used as a witness input. -/
def c6okStream : List Char := ("POST /u HTTP/1.1\r\nContent-Length: 4\r\n\r\nwxyz\r\n##").toList

/-- Chunked-and-Content-Length witness input for the amended precedence
claim. -/
def c2okStream : List Char :=
  ("POST /w HTTP/1.1\r\nTransfer-Encoding: chunked\r\nContent-Length: 2\r\n\r\nQQ\r\n").toList

/-- Header block larger than the cap: a single 9000-byte first line
(8998 bytes of `a` and the CRLF), followed by 4 more bytes. -/
def c1stream : List Char := List.replicate 8998 'a' ++ ['\r', '\n'] ++ ("MORE").toList

/-- Small request used to relate fragmented and single-write delivery. -/
def c9stream : List Char := ("GET /p HTTP/1.1\r\nHost: z\r\n\r\nnext").toList

/-- Header-cap witness input: a short well-formed GET. -/
def c1okStream : List Char := ("GET /h HTTP/1.1\r\nHost: w\r\n\r\ntail\r\n").toList

/-- Malformed request line with two tokens, used as a witness. -/
def c5panicStream : List Char := ("GET /only\r\nHost: x\r\n\r\n").toList

/-! ## Helper lemmas about `readLine` -/

theorem readLine_ok_append (s : List Char) (h : (readLine s).2.2 = false) :
    (readLine s).1 ++ (readLine s).2.1 = s := by
  induction s with
  | nil => simp [readLine] at h
  | cons c cs ih =>
    by_cases hc : c = '\n'
    · simp [readLine, hc]
    · simp only [readLine, if_neg hc] at h ⊢
      simpa using ih h

theorem readLine_ok_ne_nil (s : List Char) (h : (readLine s).2.2 = false) :
    (readLine s).1 ≠ [] := by
  cases s with
  | nil => simp [readLine] at h
  | cons c cs =>
    by_cases hc : c = '\n' <;> simp [readLine, hc]

theorem readLine_rest_lt (s : List Char) (h : (readLine s).2.2 = false) :
    (readLine s).2.1.length < s.length := by
  have h1 := readLine_ok_append s h
  have h2 := readLine_ok_ne_nil s h
  have h3 : (readLine s).1.length + (readLine s).2.1.length = s.length := by
    conv_rhs => rw [← h1]
    rw [List.length_append]
  have h4 : 0 < (readLine s).1.length := List.length_pos.mpr h2
  omega

/-- Fidelity of the fuel discipline: with the wrapper's fuel the
embedded loop never runs out — every iteration either returns or
consumes at least one character — so `parseHTTPRequest` computes the Go
loop's result on every input. -/
theorem parseLoop_no_fuelOut (fuel : Nat) : ∀ (s : List Char) (st : ParseSt),
    s.length + 2 ≤ fuel → parseLoop fuel s st ≠ .fuelOut := by
  induction fuel with
  | zero => intro s st h; omega
  | succ fuel ih =>
    intro s st hf
    simp only [parseLoop]
    by_cases herr : (readLine s).2.2 = true
    · simp [if_pos herr]
    · have he : (readLine s).2.2 = false := by
        cases hq : (readLine s).2.2
        · rfl
        · exact absurd hq herr
      have hlt := readLine_rest_lt s he
      have hrec : (readLine s).2.1.length + 2 ≤ fuel := by omega
      simp only [if_neg herr]
      by_cases hcompl : st.isHeaderComplete = false
      · simp only [if_pos hcompl]
        by_cases hcap : 8192 < st.headerBytes + (readLine s).1.length
        · simp [if_pos hcap]
        · simp only [if_neg hcap]
          by_cases hterm : (readLine s).1 = ['\r', '\n']
          · simp only [if_pos hterm]
            exact ih _ _ hrec
          · simp only [if_neg hterm]
            by_cases hcnt : st.count = 0
            · simp only [if_pos hcnt]
              rcases hsp : splitOnSpace (readLine s).1 with
                _ | ⟨t0, _ | ⟨t1, _ | ⟨t2, ts⟩⟩⟩ <;> simp only [hsp]
              · simp
              · simp
              · simp
              · exact ih _ _ hrec
            · simp only [if_neg hcnt]
              rcases hsp : splitN2Colon (readLine s).1 with ⟨d0, _ | d1⟩ <;> simp only [hsp]
              · simp
              · exact ih _ _ hrec
      · simp only [if_neg hcompl]
        by_cases hmeth : st.method = GETs ∨ st.method = HEADs
        · simp [if_pos hmeth]
        · simp only [if_neg hmeth]
          rcases hcl : computeCL 0 st.headerArr with e | cl <;> simp [hcl]

/-! ## Claim C7: bounded body reader read call -/

/-- C7: under the precondition `remaining ≥ 0`, a read call with
`remaining = 0` yields end-of-data immediately, unchanged and
independently of anything the underlying source might have produced
(the source is not consulted); a read call with `remaining > 0` whose
well-formed source delivers `n ≤ min plen remaining` bytes without error
returns those `n` bytes and decrements `remaining` by exactly `n`. -/
theorem c7_bounded_read (r : LimitedBodyReader) (plen n : Nat) (_h0 : 0 ≤ r.remaining) :
    (r.remaining = 0 → ∀ n' e', r.Read plen n' e' = .eofR r) ∧
    (0 < r.remaining → (n : Int) ≤ min (plen : Int) r.remaining →
      r.Read plen n false = .okR n ⟨r.remaining - n⟩) := by
  constructor
  · intro hz n' e'
    simp [LimitedBodyReader.Read, hz]
  · intro hp _
    have hne : ¬ r.remaining = 0 := by omega
    have hplen : (0 : Int) ≤ (plen : Int) := Int.ofNat_nonneg plen
    have hmin : ¬ (min (plen : Int) r.remaining < 0) := by omega
    simp [LimitedBodyReader.Read, hne, hmin]

theorem c7_bounded_read_witness :
    LimitedBodyReader.Read ⟨5⟩ 3 3 false = .okR 3 ⟨2⟩ :=
  (c7_bounded_read ⟨5⟩ 3 3 (by decide)).2 (by decide) (by decide)

/-! ## Claim C10: error path of the bounded body reader -/

/-- C10: when the underlying buffered source reports an error on a
bounded-body read call (which can only happen when `remaining > 0`, since
otherwise the source is never consulted), the call reports zero bytes and
an error, and `remaining` is unchanged — for every byte count `n` the
source may have delivered alongside the error. -/
theorem c10_error_path (r : LimitedBodyReader) (plen n : Nat) (h : 0 < r.remaining) :
    r.Read plen n true = .errR r := by
  have hne : ¬ r.remaining = 0 := by omega
  have hplen : (0 : Int) ≤ (plen : Int) := Int.ofNat_nonneg plen
  have hmin : ¬ (min (plen : Int) r.remaining < 0) := by omega
  simp [LimitedBodyReader.Read, hne, hmin]

theorem c10_error_path_witness :
    LimitedBodyReader.Read ⟨4⟩ 2 2 true = .errR ⟨4⟩ :=
  c10_error_path ⟨4⟩ 2 2 (by decide)

/-! ## Characterisation of a successful parse -/

/-- Every successful parse returns either a GET/HEAD request with no
body, or a request whose body is the bounded reader of exactly the value
the Content-Length scan computed over its headers. -/
theorem parseLoop_ok_shape (fuel : Nat) (s : List Char) (st : ParseSt) (req : HTTPReq)
    (rest : List Char) (h : parseLoop fuel s st = .ok req rest) :
    (req.body = none ∧ (req.method = GETs ∨ req.method = HEADs)) ∨
    (∃ cl, computeCL 0 req.headers = Except.ok cl ∧ req.body = some ⟨cl⟩ ∧
      ¬(req.method = GETs ∨ req.method = HEADs)) := by
  induction fuel generalizing s st with
  | zero => simp [parseLoop] at h
  | succ fuel ih =>
    simp only [parseLoop] at h
    repeat' split at h
    all_goals first
      | exact ih _ _ h
      | (cases h <;>
         first
          | exact Or.inl ⟨rfl, by assumption⟩
          | (rename_i hcl
             exact Or.inr ⟨_, hcl, rfl, by assumption⟩))

/-- When no `content-length` header is present, the Content-Length scan
leaves the accumulator at its initial value. -/
theorem computeCL_of_no_cl (acc : Int) (hs : List Header) (h : hasCLHeader hs = false) :
    computeCL acc hs = Except.ok acc := by
  induction hs generalizing acc with
  | nil => rfl
  | cons hd t ih =>
    simp only [hasCLHeader, List.any_cons, Bool.or_eq_false_iff] at h
    have hname : ¬ hd.name = contentLengthName := by
      intro hx
      simp [hx] at h
    simp only [computeCL, if_neg hname]
    exact ih _ h.2

/-! ## Claim C1: the header cap -/

/-- Whenever a parse run started in the header phase succeeds, the
stream's header block — its complete lines up to and including the empty
terminator line — stayed within the cap. -/
theorem parseLoop_ok_headerBlock (fuel : Nat) (s : List Char) (st : ParseSt)
    (req : HTTPReq) (rest : List Char) (hc : st.isHeaderComplete = false)
    (h : parseLoop fuel s st = .ok req rest) :
    ∃ n, headerBlockLenFuel fuel s = some n ∧ st.headerBytes + n ≤ 8192 := by
  induction fuel generalizing s st with
  | zero => simp [parseLoop] at h
  | succ fuel ih =>
    simp only [parseLoop] at h
    by_cases herr : (readLine s).2.2 = true
    · rw [if_pos herr] at h
      cases h
    · rw [if_neg herr, if_pos hc] at h
      by_cases hcap : 8192 < st.headerBytes + (readLine s).1.length
      · rw [if_pos hcap] at h
        cases h
      · rw [if_neg hcap] at h
        by_cases hterm : (readLine s).1 = ['\r', '\n']
        · refine ⟨(readLine s).1.length, ?_, by omega⟩
          simp only [headerBlockLenFuel]
          rw [if_neg herr, if_pos hterm]
        · rw [if_neg hterm] at h
          have step : ∀ st' : ParseSt,
              parseLoop fuel (readLine s).2.1 st' = ParseResult.ok req rest →
              st'.isHeaderComplete = false →
              st'.headerBytes = st.headerBytes + (readLine s).1.length →
              ∃ n, headerBlockLenFuel (fuel + 1) s = some n ∧
                st.headerBytes + n ≤ 8192 := by
            intro st' h' hc' hhb
            obtain ⟨n, hn, hle⟩ := ih _ _ hc' h'
            rw [hhb] at hle
            refine ⟨n + (readLine s).1.length, ?_, by omega⟩
            simp only [headerBlockLenFuel]
            rw [if_neg herr, if_neg hterm, hn]
            rfl
          by_cases hcnt : st.count = 0
          · rw [if_pos hcnt] at h
            split at h
            · exact step _ h hc rfl
            · cases h
          · rw [if_neg hcnt] at h
            split at h
            · exact step _ h hc rfl
            · cases h

/-- C1 amended: the cap is enforced at line granularity, so any
successful parse has a header block (terminator line included) of at
most 8192 bytes.  (As the counterexample below shows, within a single
line the parser reads arbitrarily far past the cap before checking, so
the original claim's "fails before attempting to read further,
incrementally as bytes accumulate" does not hold.) -/
theorem c1_header_cap_amended (s : List Char) (req : HTTPReq) (rest : List Char)
    (h : parseHTTPRequest s = .ok req rest) :
    ∃ n, headerBlockLen s = some n ∧ n ≤ 8192 := by
  obtain ⟨n, hn, hle⟩ := parseLoop_ok_headerBlock (s.length + 2) s {} req rest rfl h
  exact ⟨n, hn, by omega⟩

theorem c1_header_cap_amended_witness :
    ∃ n, headerBlockLen c1okStream = some n ∧ n ≤ 8192 :=
  c1_header_cap_amended c1okStream
    ⟨GETs, ['/', 'h'], http11Chars, [⟨['h', 'o', 's', 't'], ['w']⟩], none⟩ [] (by decide)

/-- When a line holds no newline byte, `ReadString` keeps scanning past
it into the rest of the stream. -/
theorem readLine_append_no_nl (l t : List Char) (h : '\n' ∉ l) :
    readLine (l ++ t) = (l ++ (readLine t).1, (readLine t).2.1, (readLine t).2.2) := by
  induction l with
  | nil => simp [readLine]
  | cons c cs ih =>
    simp only [List.mem_cons, not_or] at h
    have hc : ¬ c = '\n' := Ne.symm h.1
    have ih2 := ih h.2
    simp [readLine, hc, ih2]

/-- A stream whose accumulated line bytes already exceed the cap fails
with the cap error on the next complete line. -/
theorem parseLoop_cap_step (fuel : Nat) (s line rest : List Char) (st : ParseSt)
    (hc : st.isHeaderComplete = false)
    (hrl : readLine s = (line, rest, false))
    (hcap : 8192 < st.headerBytes + line.length) :
    parseLoop (fuel + 1) s st = .err .tooLarge rest := by
  simp only [parseLoop, hrl]
  simp [hc, hcap]

theorem c1_aux1 : '\n' ∉ List.replicate 8998 'a' := by
  intro hm
  have := List.eq_of_mem_replicate hm
  simp at this

theorem c1_aux2 : readLine (['\r', '\n'] ++ ("MORE").toList) =
    (['\r', '\n'], ("MORE").toList, false) := by decide

theorem c1_aux3 : c1stream = List.replicate 8998 'a' ++ (['\r', '\n'] ++ ("MORE").toList) :=
  List.append_assoc _ _ _

theorem c1_aux4 : readLine c1stream =
    (List.replicate 8998 'a' ++ ['\r', '\n'], ("MORE").toList, false) := by
  rw [c1_aux3, readLine_append_no_nl _ _ c1_aux1, c1_aux2]

theorem c1_aux5 : c1stream.length = 9004 := by
  have h6 : (['\r', '\n'] ++ ("MORE").toList).length = 6 := by decide
  rw [c1_aux3, List.length_append, h6, List.length_replicate]

/-- C1 counterexample: on `c1stream` the accumulated header size passes
8192 bytes at byte 8193, in the middle of its 9000-byte first line, yet
the parser keeps reading to the end of that line — 9000 bytes, 807 bytes
past the cap — before failing: `ReadString` returns only complete lines
and the cap is checked after each line, not incrementally as bytes
accumulate.  The error result's remainder shows exactly the 4 bytes
after the first line were left unread out of the 9004-byte stream. -/
theorem c1_counterexample :
    parseHTTPRequest c1stream = .err .tooLarge (("MORE").toList) ∧
    c1stream.length = 9004 ∧ 8193 < 9000 := by
  refine ⟨?_, c1_aux5, by omega⟩
  have hcap : 8192 < ({} : ParseSt).headerBytes +
      (List.replicate 8998 'a' ++ ['\r', '\n']).length := by
    rw [List.length_append, List.length_replicate]
    decide
  have hres := parseLoop_cap_step 9005 c1stream _ _ {} rfl c1_aux4 hcap
  calc parseHTTPRequest c1stream = parseLoop (c1stream.length + 2) c1stream {} := rfl
    _ = parseLoop (9005 + 1) c1stream {} := by rw [c1_aux5]
    _ = .err .tooLarge (("MORE").toList) := hres

/-! ## Claim C3 (code bug): GET does not leave the post-terminator bytes unconsumed -/

/-- C3 is a code bug: after the `\r\n` terminator the Go loop `continue`s
to the top and calls `ReadString('\n')` once more before the
GET/HEAD early return, consuming and discarding one further line.  On
`c3stream` the first parse returns the GET request with no body (that
half of the claim holds), but the unconsumed remainder is
`"Host: y\r\n\r\n"` — the second request's own request line
`"GET /c HTTP/1.1\r\n"` has been swallowed — instead of the full
post-terminator bytes.  A bare GET whose stream ends at the terminator
does not even parse: the extra read hits end-of-stream and the parser
returns an error. -/
theorem c3_get_consumes_extra_line :
    parseHTTPRequest c3stream =
      .ok ⟨GETs, ['/', 'a'], http11Chars, [⟨['h', 'o', 's', 't'], ['y']⟩], none⟩ c3restActual ∧
    c3restActual ≠ c3postTerminator ∧
    parseHTTPRequest c3bareGet = .err .readFail [] := by decide

/-! ## Claim C4 (code bug): the pipelined double GET does not yield two requests -/

/-- C4 is a code bug: on the spec's pipelined stream the first parse
succeeds (GET /a) but swallows the second request's request line, so the
second cycle of the connection loop panics while splitting
`"Host: x\r\n"` as a request line.  The loop parses exactly one request,
not two, and ends by panic rather than by an orderly close. -/
theorem c4_pipeline_two_requests :
    connectionLoop 3 c4stream =
      ([⟨GETs, ['/', 'a'], http11Chars, [⟨['h', 'o', 's', 't'], ['x']⟩], none⟩], .panicked) := by
  decide

/-! ## Claim C2 counterexample: Transfer-Encoding does not take precedence -/

/-- C2 counterexample: on a request carrying both
`Transfer-Encoding: chunked` and `Content-Length: 5` whose chunked body
has a total payload of 3 bytes, the parser installs the bounded
`LimitedBodyReader` with `remaining = 5` taken from Content-Length — the
code has no chunked strategy at all, so the body delivered is not the
chunk payload. -/
theorem c2_counterexample :
    parseHTTPRequest c2stream =
      .ok ⟨['P', 'O', 'S', 'T'], ['/', 'u'], http11Chars,
            [⟨transferEncodingName, chunkedChars⟩, ⟨contentLengthName, ['5']⟩],
            some ⟨5⟩⟩ (("abc\r\n0\r\n\r\n").toList) ∧
    hasChunkedTE [⟨transferEncodingName, chunkedChars⟩, ⟨contentLengthName, ['5']⟩] = true := by
  decide

/-! ## Claim C2 amended: Content-Length always wins, Transfer-Encoding is ignored -/

/-- C2 amended (the parser has no chunked strategy): for every
successfully parsed non-GET/HEAD request — in particular one whose
headers carry `Transfer-Encoding: chunked` — the body is the bounded
reader of exactly the value the Content-Length scan over its headers
yields; the Transfer-Encoding header has no influence at all. -/
theorem c2_te_ignored_amended (s : List Char) (req : HTTPReq) (rest : List Char)
    (hok : parseHTTPRequest s = .ok req rest)
    (_hte : hasChunkedTE req.headers = true)
    (hm : ¬(req.method = GETs ∨ req.method = HEADs)) :
    ∃ cl, computeCL 0 req.headers = Except.ok cl ∧ req.body = some ⟨cl⟩ := by
  rcases parseLoop_ok_shape _ _ _ _ _ hok with ⟨_, hg⟩ | ⟨cl, hcl, hb, _⟩
  · exact absurd hg hm
  · exact ⟨cl, hcl, hb⟩

theorem c2_te_ignored_amended_witness :
    ∃ cl,
      computeCL 0 [⟨transferEncodingName, chunkedChars⟩, ⟨contentLengthName, ['2']⟩] =
        Except.ok cl ∧
      (some ⟨2⟩ : Option LimitedBodyReader) = some ⟨cl⟩ :=
  c2_te_ignored_amended c2okStream
    ⟨['P', 'O', 'S', 'T'], ['/', 'w'], http11Chars,
      [⟨transferEncodingName, chunkedChars⟩, ⟨contentLengthName, ['2']⟩], some ⟨2⟩⟩
    [] (by decide) (by decide) (by decide)

/-! ## Claim C6 amended: Content-Length parsing via signed Atoi -/

/-- C6 amended: for every successfully parsed non-GET/HEAD request the
installed body is the bounded reader of exactly the value the signed
Atoi scan computes over the headers — a value that may be negative —
and when no Content-Length header is present that value is zero; a
Content-Length value Atoi cannot parse makes parsing fail with an error
(shown at the concrete input `c6badStream`). -/
theorem c6_content_length_amended :
    (∀ s req rest, parseHTTPRequest s = .ok req rest →
      ¬(req.method = GETs ∨ req.method = HEADs) →
      ∃ cl, computeCL 0 req.headers = Except.ok cl ∧ req.body = some ⟨cl⟩ ∧
        (hasCLHeader req.headers = false → cl = 0)) ∧
    parseHTTPRequest c6badStream = .err .atoiFail [] := by
  constructor
  · intro s req rest hok hm
    rcases parseLoop_ok_shape _ _ _ _ _ hok with ⟨_, hg⟩ | ⟨cl, hcl, hb, _⟩
    · exact absurd hg hm
    · refine ⟨cl, hcl, hb, ?_⟩
      intro hno
      have hz := computeCL_of_no_cl 0 req.headers hno
      rw [hz] at hcl
      injection hcl with hcl
      omega
  · decide

theorem c6_content_length_amended_witness :
    ∃ cl,
      computeCL 0 [⟨contentLengthName, ['4']⟩] = Except.ok cl ∧
      (some ⟨4⟩ : Option LimitedBodyReader) = some ⟨cl⟩ ∧
      (hasCLHeader [⟨contentLengthName, ['4']⟩] = false → cl = 0) :=
  c6_content_length_amended.1 c6okStream
    ⟨['P', 'O', 'S', 'T'], ['/', 'u'], http11Chars,
      [⟨contentLengthName, ['4']⟩], some ⟨4⟩⟩
    (['#', '#']) (by decide) (by decide)

/-! ## Claim C5 counterexample: a four-token request line is accepted -/

/-- C5 counterexample: a request line with four space-separated tokens is
not a malformed-request error — the parser silently takes the first three
tokens and succeeds. -/
theorem c5_counterexample :
    parseHTTPRequest c5stream =
      .ok ⟨GETs, ['/', 'a'], http11Chars, [⟨['h', 'o', 's', 't'], ['x']⟩], none⟩ [] := by
  decide

/-! ## Claim C5 amended: too few tokens panic, too many are accepted -/

/-- A request line that yields fewer than three space-separated tokens
makes the parser panic with an index-out-of-range (Go
`lineData[1]`/`lineData[2]`), not return an error result. -/
theorem parseLoop_short_line_panics (fuel : Nat) (s line rest : List Char) (st : ParseSt)
    (hc : st.isHeaderComplete = false)
    (hcnt : st.count = 0)
    (hrl : readLine s = (line, rest, false))
    (hterm : line ≠ ['\r', '\n'])
    (hcap : ¬ 8192 < st.headerBytes + line.length)
    (htok : (splitOnSpace line).length < 3) :
    parseLoop (fuel + 1) s st = .panicked := by
  simp only [parseLoop, hrl]
  simp only [hc, hcnt]
  simp [hterm, hcap]
  split
  · rename_i t0 t1 t2 ts heq
    rw [heq] at htok
    simp at htok
    omega
  · rfl

/-- C5 amended: a first line with fewer than three space-separated
tokens (that is not the bare terminator, within the cap, and complete)
makes the parser panic rather than return a malformed-request error;
a first line with more than three tokens is accepted outright (see the
counterexample), the extra tokens silently ignored. -/
theorem c5_request_line_amended (s : List Char)
    (he : (readLine s).2.2 = false)
    (hterm : (readLine s).1 ≠ ['\r', '\n'])
    (hlen : (readLine s).1.length ≤ 8192)
    (htok : (splitOnSpace (readLine s).1).length < 3) :
    parseHTTPRequest s = .panicked := by
  have hrl : readLine s = ((readLine s).1, (readLine s).2.1, false) := by rw [← he]
  exact parseLoop_short_line_panics (s.length + 1) s _ _ {} rfl rfl hrl hterm
    (show ¬ 8192 < 0 + (readLine s).1.length by omega) htok

theorem c5_request_line_amended_witness :
    parseHTTPRequest c5panicStream = .panicked :=
  c5_request_line_amended c5panicStream (by decide) (by decide) (by decide) (by decide)

/-! ## Claim C6 counterexample: a negative Content-Length is accepted -/

/-- C6 counterexample: `Content-Length: -5` is not parseable as a
non-negative integer, yet parsing succeeds (Go `strconv.Atoi` accepts a
sign) and installs a bounded reader of length `-5`. -/
theorem c6_counterexample :
    parseHTTPRequest c6stream =
      .ok ⟨['P', 'O', 'S', 'T'], ['/', 'u'], http11Chars,
            [⟨contentLengthName, ['-', '5']⟩], some ⟨-5⟩⟩ [] := by
  decide

/-! ## Claim C8 counterexample: a parser-produced reader can start negative -/

/-- C8 counterexample: request parsing with `Content-Length: -7` produces
a bounded reader whose `remaining` is already negative at creation, so
the invariant "never negative at any point, from creation through all
reads" fails before any read happens. -/
theorem c8_counterexample :
    parseHTTPRequest c8stream =
      .ok ⟨['P', 'U', 'T'], ['/', 'v'], http11Chars,
            [⟨contentLengthName, ['-', '7']⟩], some ⟨-7⟩⟩ [] ∧
    (⟨-7⟩ : LimitedBodyReader).remaining < 0 := by
  decide

/-! ## Claim C9: fragmentation invariance -/

/-- A buffered line read whose buffer already holds a newline does not
fail. -/
theorem readLine_contains_ok (l : List Char) (h : l.contains '\n' = true) :
    (readLine l).2.2 = false := by
  induction l with
  | nil => simp at h
  | cons c cs ih =>
    by_cases hc : c = '\n'
    · simp [readLine, hc]
    · have h' : cs.contains '\n' = true := by
        simp only [List.contains_cons, Bool.or_eq_true, beq_iff_eq] at h
        rcases h with h | h
        · exact absurd h.symm hc
        · exact h
      simp [readLine, hc, ih h']

/-- Reading a line out of a stream whose prefix holds a newline neither
sees nor consumes anything beyond that prefix. -/
theorem readLine_append_contains (l t : List Char) (h : l.contains '\n' = true) :
    readLine (l ++ t) = ((readLine l).1, (readLine l).2.1 ++ t, false) := by
  induction l with
  | nil => simp at h
  | cons c cs ih =>
    by_cases hc : c = '\n'
    · simp [readLine, hc]
    · have h' : cs.contains '\n' = true := by
        simp only [List.contains_cons, Bool.or_eq_true, beq_iff_eq] at h
        rcases h with h | h
        · exact absurd h.symm hc
        · exact h
      simp [readLine, hc, ih h']

/-- The fragmented buffered reader returns the same line, error flag and
(flattened) remainder as a reader over the concatenated stream. -/
theorem readLineFrag_flatten (chunks : List (List Char)) : ∀ pending : List Char,
    (readLineFrag pending chunks).1 = (readLine (pending ++ chunks.flatten)).1 ∧
    (readLineFrag pending chunks).2.1 ++ (readLineFrag pending chunks).2.2.1.flatten =
      (readLine (pending ++ chunks.flatten)).2.1 ∧
    (readLineFrag pending chunks).2.2.2 = (readLine (pending ++ chunks.flatten)).2.2 := by
  induction chunks with
  | nil =>
    intro pending
    simp [readLineFrag]
  | cons c cs ih =>
    intro pending
    by_cases hnl : pending.contains '\n' = true
    · have he := readLine_contains_ok pending hnl
      have happ := readLine_append_contains pending (c ++ cs.flatten) hnl
      have hmem : '\n' ∈ pending := by simpa using hnl
      simp [readLineFrag, hmem, happ, he]
    · have hnl' : pending.contains '\n' = false := by
        cases hq : pending.contains '\n'
        · rfl
        · exact absurd hq hnl
      have hmem : '\n' ∉ pending := by simpa using hnl'
      have hih := ih (pending ++ c)
      rw [List.append_assoc] at hih
      simpa [readLineFrag, hmem] using hih

/-- The parse loop over a fragmented delivery computes, after flattening
the unconsumed remainder, exactly the parse of the concatenated
stream — with the same fuel. -/
theorem parseLoopFrag_flatten (fuel : Nat) :
    ∀ (pending : List Char) (chunks : List (List Char)) (st : ParseSt),
    flattenF (parseLoopFrag fuel pending chunks st) =
      parseLoop fuel (pending ++ chunks.flatten) st := by
  induction fuel with
  | zero => intro pending chunks st; rfl
  | succ fuel ih =>
    intro pending chunks st
    obtain ⟨h1, h2, h3⟩ := readLineFrag_flatten chunks pending
    simp only [parseLoopFrag, parseLoop]
    rw [h1, h3]
    by_cases herr : (readLine (pending ++ chunks.flatten)).2.2 = true
    · simp only [if_pos herr, flattenF, h2]
    · simp only [if_neg herr]
      by_cases hcompl : st.isHeaderComplete = false
      · simp only [if_pos hcompl]
        by_cases hcap : 8192 < st.headerBytes + (readLine (pending ++ chunks.flatten)).1.length
        · simp only [if_pos hcap, flattenF, h2]
        · simp only [if_neg hcap]
          by_cases hterm : (readLine (pending ++ chunks.flatten)).1 = ['\r', '\n']
          · simp only [if_pos hterm]
            rw [← h2]
            exact ih _ _ _
          · simp only [if_neg hterm]
            by_cases hcnt : st.count = 0
            · simp only [if_pos hcnt]
              rcases hsp : splitOnSpace (readLine (pending ++ chunks.flatten)).1 with
                _ | ⟨t0, _ | ⟨t1, _ | ⟨t2, ts⟩⟩⟩ <;> simp only [hsp]
              · rfl
              · rfl
              · rfl
              · rw [← h2]
                exact ih _ _ _
            · simp only [if_neg hcnt]
              rcases hsp : splitN2Colon (readLine (pending ++ chunks.flatten)).1 with ⟨d0, _ | d1⟩ <;>
                simp only [hsp]
              · rfl
              · rw [← h2]
                exact ih _ _ _
      · simp only [if_neg hcompl]
        by_cases hmeth : st.method = GETs ∨ st.method = HEADs
        · simp only [if_pos hmeth, flattenF, h2]
        · simp only [if_neg hmeth]
          rcases hcl : computeCL 0 st.headerArr with e | cl <;> simp only [hcl, flattenF, h2]

/-- C9: two deliveries of the same bytes — fragmented arbitrarily, one
byte per read if desired, or in a single write — parse identically: the
returned `HTTPReq` (method, target, version, headers, body reader) is
the same structure, and the unconsumed remainder holds the same bytes;
moreover both coincide with the parse of the flat stream. -/
theorem c9_fragmentation_invariant (chunks1 chunks2 : List (List Char))
    (h : chunks1.flatten = chunks2.flatten) :
    flattenF (parseHTTPRequestFrag chunks1) = flattenF (parseHTTPRequestFrag chunks2) ∧
    flattenF (parseHTTPRequestFrag chunks1) = parseHTTPRequest chunks1.flatten := by
  unfold parseHTTPRequestFrag parseHTTPRequest
  rw [parseLoopFrag_flatten, parseLoopFrag_flatten, List.nil_append, List.nil_append, h]
  exact ⟨rfl, rfl⟩

theorem c9_fragmentation_invariant_witness :
    flattenF (parseHTTPRequestFrag (c9stream.map (fun c => [c]))) =
      flattenF (parseHTTPRequestFrag [c9stream]) :=
  (c9_fragmentation_invariant (c9stream.map (fun c => [c])) [c9stream] (by decide)).1

/-! ## Claim C8 amended: the remaining count under well-formed reads -/

/-- Along any sequence of read calls whose underlying source honours the
`io.Reader` contract, a reader that starts with non-negative `remaining`
keeps it non-negative, and it never increases. -/
theorem readTrace_invariant (ops : List (Nat × Nat × Bool)) : ∀ r : LimitedBodyReader,
    0 ≤ r.remaining → opsOk r ops = true →
    (∀ x ∈ readTrace r ops, 0 ≤ x.remaining) ∧
    List.Chain (fun a b => b.remaining ≤ a.remaining) r (readTrace r ops) := by
  induction ops with
  | nil =>
    intro r h0 hc
    simp [readTrace]
  | cons op ops ih =>
    obtain ⟨plen, n, e⟩ := op
    intro r h0 hc
    simp only [opsOk, Bool.and_eq_true] at hc
    obtain ⟨hc1, hc2⟩ := hc
    have hfin : ∀ r' : LimitedBodyReader,
        readStep r (plen, n, e) = some r' → 0 ≤ r'.remaining → r'.remaining ≤ r.remaining →
        (∀ x ∈ readTrace r ((plen, n, e) :: ops), 0 ≤ x.remaining) ∧
        List.Chain (fun a b => b.remaining ≤ a.remaining) r (readTrace r ((plen, n, e) :: ops)) := by
      intro r' hstep h0' hle
      rw [hstep] at hc2
      obtain ⟨ha, hch⟩ := ih r' h0' hc2
      simp only [readTrace, hstep]
      refine ⟨?_, List.chain_cons.mpr ⟨hle, hch⟩⟩
      intro x hx
      rcases List.mem_cons.mp hx with hx | hx
      · rw [hx]; exact h0'
      · exact ha x hx
    by_cases hrz : r.remaining = 0
    · exact hfin r (by simp [readStep, LimitedBodyReader.Read, hrz]) h0 (le_refl _)
    · have hgt : 0 < r.remaining := lt_of_le_of_ne h0 (Ne.symm hrz)
      have hplen : (0 : Int) ≤ (plen : Int) := Int.ofNat_nonneg plen
      have hmin0 : ¬ (min (plen : Int) r.remaining < 0) := by omega
      cases e with
      | true =>
        exact hfin r (by simp [readStep, LimitedBodyReader.Read, hrz, hmin0]) h0 (le_refl _)
      | false =>
        have hcontract : (n : Int) ≤ min (plen : Int) r.remaining := by
          simp only [Bool.or_eq_true, decide_eq_true_eq] at hc1
          rcases hc1 with hA | hB
          · omega
          · exact hB
        refine hfin ⟨r.remaining - n⟩
          (by simp [readStep, LimitedBodyReader.Read, hrz, hmin0]) ?_ ?_
        · show 0 ≤ r.remaining - (n : Int)
          omega
        · show r.remaining - (n : Int) ≤ r.remaining
          omega

/-- C8 amended: for a bounded reader produced by request parsing whose
initial `remaining` is non-negative (i.e. the request's Content-Length
was non-negative — the counterexample shows parsing can also produce a
reader that is negative from the start), every sequence of read calls
whose underlying source honours the `io.Reader` contract keeps
`remaining` non-negative, and the value never increases from one state
to the next. -/
theorem c8_remaining_invariant_amended (s : List Char) (req : HTTPReq) (rest : List Char)
    (r : LimitedBodyReader) (ops : List (Nat × Nat × Bool))
    (_hok : parseHTTPRequest s = .ok req rest) (_hb : req.body = some r)
    (h0 : 0 ≤ r.remaining) (hc : opsOk r ops = true) :
    (∀ x ∈ readTrace r ops, 0 ≤ x.remaining) ∧
    List.Chain (fun a b => b.remaining ≤ a.remaining) r (readTrace r ops) :=
  readTrace_invariant ops r h0 hc

theorem c8_remaining_invariant_amended_witness :
    List.Chain (fun a b => b.remaining ≤ a.remaining) (⟨3⟩ : LimitedBodyReader)
      (readTrace ⟨3⟩ [(2, 2, false), (2, 1, false)]) :=
  (c8_remaining_invariant_amended c8okStream
    ⟨['P', 'U', 'T'], ['/', 'v'], http11Chars, [⟨contentLengthName, ['3']⟩], some ⟨3⟩⟩
    (['d', 'e', 'f']) ⟨3⟩ [(2, 2, false), (2, 1, false)]
    (by decide) (by decide) (by decide) (by decide)).2

end HttpSrv
